import Mathlib

/-!
# Verification of the conversation state-reconciliation engine

Shallow embedding of the server's persistence layer (`src/server/server.js`,
schema and triggers in `src/server/db/init.js`) and proofs of the spec's
claims about it.

The database state is modelled as explicit lists of rows.  `messages` is kept
in rowid (insertion) order, matching SQLite's table order for tables whose
`id` is `INTEGER PRIMARY KEY AUTOINCREMENT`.  `created_at DATETIME DEFAULT
CURRENT_TIMESTAMP` is modelled by a `clock : Nat → Nat` function applied to
the global insert counter (`nextMsgId`): real wall-clock time is a
non-decreasing function of the insert sequence, and two inserts landing in
the same clock second receive equal timestamps.

The FTS triggers of `init.js` (`messages_after_insert`, `messages_after_delete`,
`messages_after_update`) are folded into the message mutations, since every
SQL statement fires them synchronously inside the same transaction.
-/

namespace VertexLocal

/-- A row of the `messages` table (`init.js`): `id INTEGER PRIMARY KEY
AUTOINCREMENT`, `conversation_id`, `role`, `content`, `created_at`. -/
structure Message where
  id : Nat
  conversationId : Nat
  role : String
  content : String
  createdAt : Nat
deriving Repr, DecidableEq

/-- A row of the `conversations` table (`init.js`): `id INTEGER PRIMARY KEY
AUTOINCREMENT`, `title`, `model`, `system_prompt`, `created_at`
(the free-form `parameters` blob is never written by the server and omitted). -/
structure Conversation where
  id : Nat
  title : String
  model : String
  system_prompt : Option String
  createdAt : Nat
deriving Repr, DecidableEq

/-- The durable store: both tables, the `messages_fts` external-content
full-text mirror (one `(rowid, content)` entry per indexed message), and the
two AUTOINCREMENT counters. -/
structure DB where
  conversations : List Conversation
  messages : List Message
  fts : List (Nat × String)
  nextConvId : Nat
  nextMsgId : Nat
deriving Repr, DecidableEq

/-- `insertMessageStmt`: `INSERT INTO messages (conversation_id, role, content)
VALUES (?, ?, ?)`; `id` is the next AUTOINCREMENT value, `created_at` the
current timestamp `t`.  The `messages_after_insert` trigger adds the
`(new.id, new.content)` entry to `messages_fts`. -/
def insertMessage (cid : Nat) (role content : String) (t : Nat) (db : DB) : DB :=
  { db with
    messages := db.messages ++ [⟨db.nextMsgId, cid, role, content, t⟩]
    fts := db.fts ++ [(db.nextMsgId, content)]
    nextMsgId := db.nextMsgId + 1 }

/-- `deleteAllMessagesStmt`: `DELETE FROM messages WHERE conversation_id = ?`.
The `messages_after_delete` trigger removes the index entry of every deleted
row. -/
def deleteAllMessages (cid : Nat) (db : DB) : DB :=
  { db with
    messages := db.messages.filter (fun m => m.conversationId ≠ cid)
    fts := db.fts.filter
      (fun e => ¬ db.messages.any (fun m => m.conversationId = cid ∧ m.id = e.1)) }

/-- `DELETE FROM messages WHERE id = ?` (route `DELETE /api/messages/:id`).
`id` is the primary key, so at most one row is affected; the delete trigger
removes its index entry iff the row existed. -/
def deleteMessage (mid : Nat) (db : DB) : DB :=
  { db with
    messages := db.messages.filter (fun m => m.id ≠ mid)
    fts := if db.messages.any (fun m => m.id = mid)
           then db.fts.filter (fun e => e.1 ≠ mid)
           else db.fts }

/-- `UPDATE messages SET content = ? WHERE id = ?` (route
`PATCH /api/messages/:id`).  At most one row matches the primary key; the
`messages_after_update` trigger deletes the old index entry and inserts
`(new.id, new.content)` — it fires only if a row was actually updated. -/
def updateMessageContent (mid : Nat) (content : String) (db : DB) : DB :=
  { db with
    messages := db.messages.map
      (fun m => if m.id = mid then { m with content := content } else m)
    fts := if db.messages.any (fun m => m.id = mid)
           then db.fts.filter (fun e => e.1 ≠ mid) ++ [(mid, content)]
           else db.fts }

/-- `DELETE FROM conversations WHERE id = ?` (route
`DELETE /api/conversations/:id`).  The schema declares
`FOREIGN KEY (conversation_id) REFERENCES conversations (id) ON DELETE
CASCADE`, so the conversation's messages are deleted with it, and the delete
trigger removes each cascaded row's index entry. -/
def deleteConversation (cid : Nat) (db : DB) : DB :=
  { db with
    conversations := db.conversations.filter (fun c => c.id ≠ cid)
    messages := db.messages.filter (fun m => m.conversationId ≠ cid)
    fts := db.fts.filter
      (fun e => ¬ db.messages.any (fun m => m.conversationId = cid ∧ m.id = e.1)) }

/-- `createConversationStmt`: `INSERT INTO conversations (title, model,
system_prompt) VALUES (?, ?, ?)`; returns the updated store and
`lastInsertRowid`. -/
def createConversation (title model : String) (sp : Option String) (t : Nat)
    (db : DB) : DB × Nat :=
  ({ db with
     conversations := db.conversations ++ [⟨db.nextConvId, title, model, sp, t⟩]
     nextConvId := db.nextConvId + 1 }, db.nextConvId)

/-- The rows of the `messages` table belonging to one conversation, in table
(rowid) order. -/
def msgsOf (db : DB) (cid : Nat) : List Message :=
  db.messages.filter (fun m => m.conversationId = cid)

/-- The observable payload of a message row: its role and content. -/
def rc (m : Message) : String × String :=
  (m.role, m.content)

/-- The §3 invariant on the full-text mirror: `messages_fts` holds exactly one
entry per existing message id, carrying that message's content. -/
def ftsConsistent (db : DB) : Prop :=
  db.fts.Perm (db.messages.map (fun m => (m.id, m.content)))

/-- Well-formedness maintained by the schema: primary keys are unique and
below the AUTOINCREMENT counters, and every message's conversation id was
issued by the conversation counter. -/
def WF (db : DB) : Prop :=
  (db.messages.map (fun m => m.id)).Nodup ∧
  (∀ m ∈ db.messages, m.id < db.nextMsgId) ∧
  (∀ m ∈ db.messages, m.conversationId < db.nextConvId) ∧
  (db.conversations.map (fun c => c.id)).Nodup ∧
  (∀ c ∈ db.conversations, c.id < db.nextConvId)

instance (db : DB) : Decidable (WF db) := by
  unfold WF; infer_instance

instance (db : DB) : Decidable (ftsConsistent db) := by
  unfold ftsConsistent; infer_instance

/-- Run `insertMessageStmt` once per `(role, content)` pair, in list order;
each insert's `created_at` is the clock reading at its insert-counter
position. -/
def insertList (clock : Nat → Nat) (cid : Nat) : List (String × String) → DB → DB
  | [], db => db
  | (r, c) :: rest, db =>
      insertList clock cid rest (insertMessage cid r c (clock db.nextMsgId) db)

/-- Body of the `reconcile` transaction of `POST /api/chat/:id/reconcile`:
delete every message of the conversation, then insert the client-supplied
pairs in list order. -/
def reconcileMessages (cid : Nat) (msgs : List (String × String))
    (clock : Nat → Nat) (db : DB) : DB :=
  insertList clock cid msgs (deleteAllMessages cid db)

/-! ## Transactions

`better-sqlite3`'s `db.transaction(fn)` wraps `fn` in `BEGIN` / `COMMIT` and
issues `ROLLBACK` when any statement inside throws: on failure the store is
restored to its state at `BEGIN`.  We model a transaction as a statement list
run against a working copy, with a failure flag per statement (any statement
may fail: constraint violation, I/O error, …); the first failing statement
aborts the whole transaction and yields the original state. -/

/-- The SQL statements executed inside the reconcile transaction. -/
inductive Stmt where
  | deleteAll (cid : Nat)
  | insertMsg (cid : Nat) (role content : String)
deriving Repr, DecidableEq

/-- Effect of one successfully executed statement. -/
def applyStmt (clock : Nat → Nat) : Stmt → DB → DB
  | .deleteAll cid, db => deleteAllMessages cid db
  | .insertMsg cid r c, db => insertMessage cid r c (clock db.nextMsgId) db

/-- Execute statements in order against the working state `cur`; `orig` is the
snapshot taken at `BEGIN`.  A `true` failure flag makes the corresponding
statement throw, which rolls the transaction back to `orig`. -/
def runTxFrom (clock : Nat → Nat) (orig : DB) :
    List Stmt → List Bool → DB → DB
  | [], _, cur => cur
  | _ :: _, [], cur => cur
  | s :: rest, f :: fs, cur =>
      if f then orig else runTxFrom clock orig rest fs (applyStmt clock s cur)

/-- Run a whole transaction from state `db`. -/
def runTx (clock : Nat → Nat) (stmts : List Stmt) (fails : List Bool)
    (db : DB) : DB :=
  runTxFrom clock db stmts fails db

/-- The statement list of the `reconcile` transaction in
`POST /api/chat/:id/reconcile`: one delete of the whole conversation followed
by one insert per client message, in list order. -/
def reconcileStmts (cid : Nat) (msgs : List (String × String)) : List Stmt :=
  Stmt.deleteAll cid :: msgs.map (fun p => Stmt.insertMsg cid p.1 p.2)

/-! ## The streaming chat turn (`POST /api/chat/:id`) -/

/-- Outcome of one `generateContentStream` call: the chunk texts that arrived
(`""` standing for an absent/empty `chunk.text`, which the handler skips), and
whether the stream completed without error (`ok = false`: the stream threw
after delivering `chunks`). -/
structure StreamOutcome where
  chunks : List String
  ok : Bool
deriving Repr, DecidableEq

/-- The chunk texts actually written to the caller: the handler forwards
`chunk.text` only when it is truthy. -/
def forwardedChunks (s : StreamOutcome) : List String :=
  s.chunks.filter (fun c => c ≠ "")

/-- `fullModelResponse`: the in-memory accumulator, built by appending exactly
the forwarded chunk texts in arrival order. -/
def accumulatedText (s : StreamOutcome) : String :=
  String.join (forwardedChunks s)

/-- The persistence effect of one chat turn in `POST /api/chat/:id`.  On clean
completion the handler runs the `reconcileDB` transaction: delete all messages
of the conversation, insert the client-supplied pairs in order, then insert
one `model` message holding the accumulator.  If the stream throws first, the
`catch` block runs instead and no database statement is executed. -/
def chatTurn (cid : Nat) (clientMsgs : List (String × String))
    (s : StreamOutcome) (clock : Nat → Nat) (db : DB) : DB :=
  if s.ok then
    reconcileMessages cid (clientMsgs ++ [("model", accumulatedText s)]) clock db
  else db

/-! ## Branching (`POST /api/conversations/branch`) -/

/-- `SELECT ... ORDER BY created_at ASC` materialised deterministically as a
stable sort on `created_at` over table order (SQLite's full-scan behaviour);
the contractual, nondeterministic reading of `ORDER BY` is `sqlOrderedRead`
below. -/
def sortByCreatedAt (l : List Message) : List Message :=
  List.insertionSort (fun a b => a.createdAt ≤ b.createdAt) l

/-- The branch transaction: look up the source message's `created_at` by id
(`WHERE id = ?`, primary key), collect the source conversation's messages with
`created_at <= ?` in ascending timestamp order, look up the source
conversation, create the new conversation (`Branch of "<title>"`, same model
and system prompt), and copy the collected rows into it.  A thrown error
(`Source message not found` / `Source conversation not found`) rolls the
transaction back, leaving the store unchanged — modelled by returning
`Except.error` without touching `db`. -/
def branch (srcCid srcMid : Nat) (clock : Nat → Nat) (db : DB) :
    Except String (DB × Nat) :=
  match db.messages.find? (fun m => m.id = srcMid) with
  | none => .error "Source message not found"
  | some sm =>
    let messagesToCopy := sortByCreatedAt (db.messages.filter
      (fun m => m.conversationId = srcCid ∧ m.createdAt ≤ sm.createdAt))
    match db.conversations.find? (fun c => c.id = srcCid) with
    | none => .error "Source conversation not found"
    | some sc =>
      let created := createConversation
        ("Branch of \x22" ++ sc.title ++ "\x22") sc.model sc.system_prompt
        (clock db.nextMsgId) db
      .ok (insertList clock created.2 (messagesToCopy.map rc) created.1, created.2)

/-- The HTTP surface of the branch route: on success reply 200 with the new
conversation id; a thrown error reaches `fastify.setErrorHandler`, which
replies `500` (`An internal server error occurred.`).  Result:
`(state after, status code, new conversation id)`. -/
def branchRoute (srcCid srcMid : Nat) (clock : Nat → Nat) (db : DB) :
    DB × Nat × Option Nat :=
  match branch srcCid srcMid clock db with
  | .error _ => (db, 500, none)
  | .ok (db', newCid) => (db', 200, some newCid)

/-! ## Patch routes -/

/-- `PATCH /api/messages/:id`: reject a body without `content` with 400,
otherwise run the update statement and reply 200
(`Message updated successfully.`) regardless of how many rows matched. -/
def patchMessage (mid : Nat) (content? : Option String) (db : DB) : DB × Nat :=
  match content? with
  | none => (db, 400)
  | some c => (updateMessageContent mid c db, 200)

/-- `PATCH /api/conversations/:id`: collect the recognized fields (`model`,
`systemPrompt`) present in the body; with none, reply 400, otherwise run
`UPDATE conversations SET ... WHERE id = ?` and reply 200
(`Conversation updated successfully.`) regardless of how many rows matched.
`systemPrompt? = some v` means the body carried the field with value `v`
(which may itself be SQL NULL, hence the nested option). -/
def patchConversation (cid : Nat) (model? : Option String)
    (systemPrompt? : Option (Option String)) (db : DB) : DB × Nat :=
  if model?.isNone ∧ systemPrompt?.isNone then (db, 400)
  else
    ({ db with conversations := db.conversations.map (fun c =>
        if c.id = cid then
          { c with model := model?.getD c.model
                   system_prompt := systemPrompt?.getD c.system_prompt }
        else c) }, 200)

/-! ## The ORDER BY read contract -/

/-- The contract of `getConversationHistoryStmt` (`SELECT id, role, content
FROM messages WHERE conversation_id = ? ORDER BY created_at ASC`): SQL
promises some enumeration of the matching rows that is non-decreasing in
`created_at` — the relative order of rows with equal `created_at` is
unspecified, since the query names no tie-break column. -/
def sqlOrderedRead (db : DB) (cid : Nat) (l : List Message) : Prop :=
  l.Perm (msgsOf db cid) ∧
  l.Sorted (fun a b => a.createdAt ≤ b.createdAt)

instance (db : DB) (cid : Nat) (l : List Message) :
    Decidable (sqlOrderedRead db cid l) := by
  unfold sqlOrderedRead; infer_instance

/-! ## Message mutations (for the full-text mirror invariant) -/

/-- The message mutations the server can perform: a message insert, an
in-place content update, a single-message delete, and the cascaded deletes
caused by deleting a conversation. -/
inductive Mutation where
  | insertMsg (cid : Nat) (role content : String) (t : Nat)
  | updateMsg (mid : Nat) (content : String)
  | deleteMsg (mid : Nat)
  | deleteAllMsgs (cid : Nat)
  | deleteConv (cid : Nat)
deriving Repr, DecidableEq

/-- Effect of one message mutation on the store. -/
def applyMutation : Mutation → DB → DB
  | .insertMsg cid r c t, db => insertMessage cid r c t db
  | .updateMsg mid c, db => updateMessageContent mid c db
  | .deleteMsg mid, db => deleteMessage mid db
  | .deleteAllMsgs cid, db => deleteAllMessages cid db
  | .deleteConv cid, db => deleteConversation cid db

/-! ## Helper lemmas -/

theorem runTxFrom_of_fail (clock : Nat → Nat) (orig : DB) :
    ∀ (stmts : List Stmt) (fails : List Bool) (cur : DB),
      true ∈ fails.take stmts.length →
      runTxFrom clock orig stmts fails cur = orig := by
  intro stmts
  induction stmts with
  | nil => intro fails cur h; simp at h
  | cons s rest ih =>
    intro fails cur h
    cases fails with
    | nil => simp at h
    | cons f fs =>
      simp only [List.length_cons, List.take_succ_cons, List.mem_cons] at h
      rcases h with h | h
      · simp [runTxFrom, ← h]
      · by_cases hf : f
        · simp [runTxFrom, hf]
        · simp only [runTxFrom, if_neg hf]
          exact ih fs _ h

theorem insertList_conversations (clock : Nat → Nat) (cid : Nat) :
    ∀ (msgs : List (String × String)) (db : DB),
      (insertList clock cid msgs db).conversations = db.conversations := by
  intro msgs
  induction msgs with
  | nil => intro db; rfl
  | cons p rest ih => intro db; cases p with | mk r c => simp [insertList, ih, insertMessage]

theorem msgsOf_insertMessage_self (cid : Nat) (r c : String) (t : Nat) (db : DB) :
    msgsOf (insertMessage cid r c t db) cid =
      msgsOf db cid ++ [⟨db.nextMsgId, cid, r, c, t⟩] := by
  simp [msgsOf, insertMessage, List.filter_append]

theorem msgsOf_insertMessage_other (cid cid' : Nat) (r c : String) (t : Nat)
    (db : DB) (h : cid' ≠ cid) :
    msgsOf (insertMessage cid r c t db) cid' = msgsOf db cid' := by
  simp [msgsOf, insertMessage, List.filter_append, h.symm]

theorem insertList_msgsOf_self (clock : Nat → Nat) (cid : Nat) :
    ∀ (msgs : List (String × String)) (db : DB),
      (msgsOf (insertList clock cid msgs db) cid).map rc =
        (msgsOf db cid).map rc ++ msgs := by
  intro msgs
  induction msgs with
  | nil => intro db; simp [insertList]
  | cons p rest ih =>
    intro db
    cases p with
    | mk r c =>
      rw [insertList, ih, msgsOf_insertMessage_self]
      simp [rc]

theorem insertList_msgsOf_other (clock : Nat → Nat) (cid cid' : Nat)
    (h : cid' ≠ cid) :
    ∀ (msgs : List (String × String)) (db : DB),
      msgsOf (insertList clock cid msgs db) cid' = msgsOf db cid' := by
  intro msgs
  induction msgs with
  | nil => intro db; rfl
  | cons p rest ih =>
    intro db
    cases p with
    | mk r c => rw [insertList, ih, msgsOf_insertMessage_other _ _ _ _ _ _ h]

theorem msgsOf_deleteAll_self (cid : Nat) (db : DB) :
    msgsOf (deleteAllMessages cid db) cid = [] := by
  simp [msgsOf, deleteAllMessages, List.filter_filter]

theorem msgsOf_deleteAll_other (cid cid' : Nat) (db : DB) (h : cid' ≠ cid) :
    msgsOf (deleteAllMessages cid db) cid' = msgsOf db cid' := by
  simp only [msgsOf, deleteAllMessages, List.filter_filter]
  apply List.filter_congr
  intro m _
  by_cases hm : m.conversationId = cid'
  · simp [hm, h]
  · simp [hm]

theorem rc_reconcileMessages (cid : Nat) (msgs : List (String × String))
    (clock : Nat → Nat) (db : DB) :
    (msgsOf (reconcileMessages cid msgs clock db) cid).map rc = msgs := by
  rw [reconcileMessages, insertList_msgsOf_self, msgsOf_deleteAll_self]
  rfl

/-! ## Claims -/

/-- C1: the reconcile operation is all-or-nothing.  For every conversation and
every client-supplied message list, if any delete or insert inside the
reconcile transaction fails, the whole transaction rolls back and the store —
in particular the conversation's previously persisted message set — is left
exactly as it was: no row of the old history is lost and no row of the new
history is committed.  The delete phase is statement 0 of `reconcileStmts`,
so a storage failure during the delete phase is covered. -/
theorem C1_reconcile_all_or_nothing (clock : Nat → Nat) (cid : Nat)
    (msgs : List (String × String)) (fails : List Bool) (db : DB)
    (h : true ∈ fails.take (reconcileStmts cid msgs).length) :
    runTx clock (reconcileStmts cid msgs) fails db = db :=
  runTxFrom_of_fail clock db _ fails db h

/-- Witness for C1: a failure of the delete phase (`fails = [true, false]`)
of a reconcile against a store holding one message leaves the store intact. -/
theorem C1_witness :
    true ∈ ([true, false]).take (reconcileStmts 1 [("user", "a")]).length ∧
    runTx (fun _ => 7) (reconcileStmts 1 [("user", "a")]) [true, false]
      ⟨[⟨1, "T", "m", none, 0⟩], [⟨1, 1, "user", "hi", 3⟩], [(1, "hi")], 2, 2⟩ =
      ⟨[⟨1, "T", "m", none, 0⟩], [⟨1, 1, "user", "hi", 3⟩], [(1, "hi")], 2, 2⟩ :=
  ⟨by decide, C1_reconcile_all_or_nothing _ _ _ _ _ (by decide)⟩

/-- C3: for every chat turn whose model stream fails or drops before
completion — even after some chunks were already forwarded — the `catch`
block runs instead of `reconcileDB`: no reconciliation call is made and the
persisted store after the failed turn equals the store before it,
byte for byte. -/
theorem C3_failed_stream_leaves_history_intact (cid : Nat)
    (clientMsgs : List (String × String)) (s : StreamOutcome)
    (clock : Nat → Nat) (db : DB) (h : s.ok = false) :
    chatTurn cid clientMsgs s clock db = db := by
  simp [chatTurn, h]

/-- Witness for C3: a turn that fails after forwarding three chunks leaves a
two-message history exactly as it was. -/
theorem C3_witness :
    (StreamOutcome.mk ["He", "llo", "!"] false).ok = false ∧
    chatTurn 1 [("user", "q")] ⟨["He", "llo", "!"], false⟩ (fun n => n)
      ⟨[⟨1, "T", "m", none, 0⟩],
       [⟨1, 1, "user", "old", 2⟩, ⟨2, 1, "model", "ans", 3⟩],
       [(1, "old"), (2, "ans")], 2, 3⟩ =
      ⟨[⟨1, "T", "m", none, 0⟩],
       [⟨1, 1, "user", "old", 2⟩, ⟨2, 1, "model", "ans", 3⟩],
       [(1, "old"), (2, "ans")], 2, 3⟩ :=
  ⟨rfl, C3_failed_stream_leaves_history_intact _ _ _ _ _ rfl⟩

/-- C4: for every chat turn that completes without error, the persisted
message set of the conversation afterwards is exactly the client-supplied
history in order, followed by one trailing `model` message whose content is
the concatenation, in arrival order, of the chunk texts forwarded to the
caller; the replace-and-append is the single `reconcileDB` transaction the
handler invokes once per turn. -/
theorem C4_completed_turn_replaces_and_appends (cid : Nat)
    (clientMsgs : List (String × String)) (s : StreamOutcome)
    (clock : Nat → Nat) (db : DB) (h : s.ok = true) :
    (msgsOf (chatTurn cid clientMsgs s clock db) cid).map rc =
      clientMsgs ++ [("model", String.join (forwardedChunks s))] := by
  simp only [chatTurn, h, if_true]
  rw [rc_reconcileMessages]
  rfl

/-- Witness for C4: a completed turn with chunks `["Hi", "", " there"]`
persists the client history plus one model message `"Hi there"`. -/
theorem C4_witness :
    (StreamOutcome.mk ["Hi", "", " there"] true).ok = true ∧
    (msgsOf (chatTurn 1 [("user", "q")] ⟨["Hi", "", " there"], true⟩ (fun _ => 9)
        ⟨[⟨1, "T", "m", none, 0⟩], [⟨1, 1, "user", "old", 2⟩],
         [(1, "old")], 2, 2⟩) 1).map rc =
      [("user", "q")] ++
        [("model", String.join (forwardedChunks ⟨["Hi", "", " there"], true⟩))] :=
  ⟨rfl, C4_completed_turn_replaces_and_appends _ _ _ _ _ rfl⟩

/-- C9: reconciliation is idempotent on identical input — reconciling a
conversation with list `L` and then reconciling again with `L` yields the
same persisted message set (same roles and contents in the same order) as
reconciling once, whatever timestamps the two runs observe. -/
theorem C9_reconcile_idempotent (cid : Nat) (msgs : List (String × String))
    (clock clock' : Nat → Nat) (db : DB) :
    (msgsOf (reconcileMessages cid msgs clock'
        (reconcileMessages cid msgs clock db)) cid).map rc =
      (msgsOf (reconcileMessages cid msgs clock db) cid).map rc := by
  rw [rc_reconcileMessages, rc_reconcileMessages]

/-- C2, evaluated at the failing input: reconcile conversation 1 with
`[user:"a", user:"b"]` while both inserts land in the same clock second
(`created_at = 5` for both, as `DATETIME DEFAULT CURRENT_TIMESTAMP` has
second resolution).  The read `[b, a]` satisfies everything
`getConversationHistoryStmt`'s `ORDER BY created_at ASC` promises — it is a
permutation of the conversation's rows, non-decreasing in `created_at` — yet
it is not the submitted order: the query names no tie-break column, so the
claim's guarantee that the read honors insertion order under equal
timestamps does not hold of the code. -/
theorem C2_tied_timestamps_read_not_insertion_order :
    sqlOrderedRead
      (reconcileMessages 1 [("user", "a"), ("user", "b")] (fun _ => 5)
        ⟨[⟨1, "T", "m", none, 0⟩], [], [], 2, 1⟩) 1
      [⟨2, 1, "user", "b", 5⟩, ⟨1, 1, "user", "a", 5⟩] ∧
    [(⟨2, 1, "user", "b", 5⟩ : Message), ⟨1, 1, "user", "a", 5⟩].map rc ≠
      [("user", "a"), ("user", "b")] := by
  constructor
  · constructor
    · decide
    · decide
  · decide

/-- C7, counterexample: `POST /api/chat/:id/reconcile` inserts whatever
role-tagged pairs the client supplies, so reconciling an empty conversation
with `[model:"fabricated"]` commits a `model`-role message although no
generation ran at all — the claim that a model-role message is never
committed unless its generation finished successfully is false of the code. -/
theorem C7_counterexample_reconcile_commits_model_row :
    ((reconcileMessages 1 [("model", "fabricated")] (fun _ => 5)
        ⟨[⟨1, "T", "m", none, 0⟩], [], [], 2, 1⟩).messages.filter
        (fun m => m.role = "model")).map rc = [("model", "fabricated")] ∧
    (⟨[⟨1, "T", "m", none, 0⟩], [], [], 2, 1⟩ : DB).messages = [] := by
  constructor
  · decide
  · rfl

/-- C7 as amended: the streaming chat turn itself never commits its
synthesized model message unless the generation completed without error — a
turn whose stream fails leaves the store's `model`-role rows exactly as they
were.  (The reconcile endpoint, by the unbounded client-trust model, will
persist client-supplied `model`-role rows without any generation.) -/
theorem C7_failed_generation_commits_no_model_row (cid : Nat)
    (clientMsgs : List (String × String)) (s : StreamOutcome)
    (clock : Nat → Nat) (db : DB) (h : s.ok = false) :
    (chatTurn cid clientMsgs s clock db).messages.filter
        (fun m => m.role = "model") =
      db.messages.filter (fun m => m.role = "model") := by
  simp [chatTurn, h]

/-- Witness for the amended C7: a turn that fails after one chunk leaves the
single stored `model` row untouched. -/
theorem C7_witness :
    (StreamOutcome.mk ["x"] false).ok = false ∧
    ((chatTurn 2 [("user", "u2")] ⟨["x"], false⟩ (fun _ => 4)
        ⟨[⟨2, "S", "m", some "sys", 1⟩], [⟨3, 2, "model", "kept", 2⟩],
         [(3, "kept")], 3, 4⟩).messages.filter
        (fun m => m.role = "model")) =
      (⟨[⟨2, "S", "m", some "sys", 1⟩], [⟨3, 2, "model", "kept", 2⟩],
        [(3, "kept")], 3, 4⟩ : DB).messages.filter
        (fun m => m.role = "model") :=
  ⟨rfl, C7_failed_generation_commits_no_model_row _ _ _ _ _ rfl⟩

/-- C8, counterexample: branching from a nonexistent source message throws
`Source message not found`, which `fastify.setErrorHandler` surfaces as HTTP
`500` (`An internal server error occurred.`) — a server error, not the client
error the claim promises.  No mutation occurs (the store is returned
unchanged), but the status class is wrong. -/
theorem C8_counterexample_branch_not_found_is_500 :
    branchRoute 1 99 (fun _ => 9)
      ⟨[⟨1, "T", "m", none, 0⟩], [⟨1, 1, "user", "hi", 3⟩], [(1, "hi")], 2, 2⟩ =
      (⟨[⟨1, "T", "m", none, 0⟩], [⟨1, 1, "user", "hi", 3⟩], [(1, "hi")], 2, 2⟩,
       500, none) ∧
    ¬(400 ≤ 500 ∧ 500 < 500) := by
  constructor
  · rfl
  · decide

/-- C8 as amended: for every branch request whose source message id or source
conversation id does not exist, the branch fails and no mutation occurs — the
store is returned exactly as it was and no new conversation id is issued —
but the failure is surfaced as HTTP `500` (a generic internal server error),
not as a 4xx client error. -/
theorem C8_branch_not_found_no_mutation_500 (srcCid srcMid : Nat)
    (clock : Nat → Nat) (db : DB)
    (h : db.messages.find? (fun m => m.id = srcMid) = none ∨
         db.conversations.find? (fun c => c.id = srcCid) = none) :
    branchRoute srcCid srcMid clock db = (db, 500, none) := by
  rcases h with h | h
  · simp [branchRoute, branch, h]
  · cases hm : db.messages.find? (fun m => m.id = srcMid) with
    | none => simp [branchRoute, branch, hm]
    | some sm => simp [branchRoute, branch, hm, h]

/-- Witness for the amended C8: branching from an existing message of a
conversation whose row does not exist mutates nothing and returns 500. -/
theorem C8_witness :
    ((⟨[⟨1, "T", "m", none, 0⟩], [⟨1, 5, "user", "hi", 3⟩], [(1, "hi")], 2, 2⟩ :
        DB).messages.find? (fun m => m.id = 1) = none ∨
     (⟨[⟨1, "T", "m", none, 0⟩], [⟨1, 5, "user", "hi", 3⟩], [(1, "hi")], 2, 2⟩ :
        DB).conversations.find? (fun c => c.id = 5) = none) ∧
    branchRoute 5 1 (fun _ => 9)
      ⟨[⟨1, "T", "m", none, 0⟩], [⟨1, 5, "user", "hi", 3⟩], [(1, "hi")], 2, 2⟩ =
      (⟨[⟨1, "T", "m", none, 0⟩], [⟨1, 5, "user", "hi", 3⟩], [(1, "hi")], 2, 2⟩,
       500, none) :=
  ⟨by decide, C8_branch_not_found_no_mutation_500 _ _ _ _ (by decide)⟩

/-- C10: neither patch route checks how many rows its `UPDATE ... WHERE id = ?`
touched.  For every id referring to no stored row, patching a message's
content (with `content` present) and patching a conversation's recognized
fields (with at least one of `model` / `systemPrompt` present) both reply
200 success rather than NotFound, and no stored row changes. -/
theorem C10_patch_missing_ids_report_success (mid cid : Nat) (c : String)
    (model? : Option String) (sp? : Option (Option String)) (db : DB)
    (hm : ∀ m ∈ db.messages, m.id ≠ mid)
    (hc : ∀ co ∈ db.conversations, co.id ≠ cid)
    (hf : model?.isSome ∨ sp?.isSome) :
    patchMessage mid (some c) db = (db, 200) ∧
    patchConversation cid model? sp? db = (db, 200) := by
  have hany : db.messages.any (fun m => m.id = mid) = false := by
    simp only [List.any_eq_false, decide_eq_true_eq]
    exact hm
  constructor
  · simp only [patchMessage, updateMessageContent, hany, Bool.false_eq_true,
      if_false]
    have hmap : db.messages.map
        (fun m => if m.id = mid then { m with content := c } else m) =
        db.messages := by
      have := List.map_congr_left (l := db.messages)
        (f := fun m => if m.id = mid then { m with content := c } else m)
        (g := id) (fun m hmem => by simp [hm m hmem])
      simpa using this
    rw [hmap]
  · have hcond : ¬(model?.isNone ∧ sp?.isNone) := by
      rcases hf with hf | hf <;> simp [Option.isSome_iff_ne_none] at hf <;>
        simp [Option.isNone_iff_eq_none, hf]
    simp only [patchConversation, if_neg hcond]
    have hmap : db.conversations.map (fun co =>
        if co.id = cid then
          { co with model := model?.getD co.model
                    system_prompt := sp?.getD co.system_prompt }
        else co) = db.conversations := by
      have := List.map_congr_left (l := db.conversations)
        (f := fun co =>
          if co.id = cid then
            { co with model := model?.getD co.model
                      system_prompt := sp?.getD co.system_prompt }
          else co)
        (g := id) (fun co hmem => by simp [hc co hmem])
      simpa using this
    rw [hmap]

/-- Witness for C10: ids 42 (message) and 42 (conversation) exist in neither
table of a one-row store; both patches return the store unchanged with 200. -/
theorem C10_witness :
    (∀ m ∈ (⟨[⟨1, "T", "m", none, 0⟩], [⟨1, 1, "user", "hi", 3⟩], [(1, "hi")],
        2, 2⟩ : DB).messages, m.id ≠ 42) ∧
    (∀ co ∈ (⟨[⟨1, "T", "m", none, 0⟩], [⟨1, 1, "user", "hi", 3⟩], [(1, "hi")],
        2, 2⟩ : DB).conversations, co.id ≠ 42) ∧
    ((some "m2" : Option String).isSome ∨
      (none : Option (Option String)).isSome) ∧
    patchMessage 42 (some "new")
      ⟨[⟨1, "T", "m", none, 0⟩], [⟨1, 1, "user", "hi", 3⟩], [(1, "hi")], 2, 2⟩ =
      (⟨[⟨1, "T", "m", none, 0⟩], [⟨1, 1, "user", "hi", 3⟩], [(1, "hi")], 2, 2⟩,
        200) ∧
    patchConversation 42 (some "m2") none
      ⟨[⟨1, "T", "m", none, 0⟩], [⟨1, 1, "user", "hi", 3⟩], [(1, "hi")], 2, 2⟩ =
      (⟨[⟨1, "T", "m", none, 0⟩], [⟨1, 1, "user", "hi", 3⟩], [(1, "hi")], 2, 2⟩,
        200) := by
  refine ⟨by decide, by decide, by decide, ?_⟩
  exact C10_patch_missing_ids_report_success 42 42 "new" (some "m2") none _
    (by decide) (by decide) (by decide)

/-- Filtering the image of a map equals mapping the correspondingly filtered
source, whenever the two predicates agree on the list's members. -/
theorem filter_map_congr {α β : Type} (f : α → β) (q : β → Bool) (p : α → Bool) :
    ∀ l : List α, (∀ m ∈ l, q (f m) = p m) →
      (l.map f).filter q = (l.filter p).map f := by
  intro l
  induction l with
  | nil => intro _; rfl
  | cons a t ih =>
    intro h
    simp only [List.map_cons, List.filter_cons]
    rw [h a (List.mem_cons_self a t)]
    by_cases hp : p a = true
    · rw [if_pos hp, if_pos hp, List.map_cons,
        ih (fun m hm => h m (List.mem_cons_of_mem a hm))]
    · rw [if_neg hp, if_neg hp, ih (fun m hm => h m (List.mem_cons_of_mem a hm))]

/-- A consistent index has no orphans: every index entry belongs to a stored
message carrying the same content. -/
theorem mem_messages_of_consistent (db : DB) (hfts : ftsConsistent db) :
    ∀ e ∈ db.fts, ∃ m ∈ db.messages, m.id = e.1 ∧ m.content = e.2 := by
  intro e he
  have hmem : e ∈ db.messages.map (fun m => (m.id, m.content)) :=
    hfts.mem_iff.mp he
  rcases List.mem_map.mp hmem with ⟨m, hm, hme⟩
  refine ⟨m, hm, ?_, ?_⟩ <;> rw [← hme]

/-- The cascade predicate on index entries agrees, on stored rows, with the
row-level predicate "not in the deleted conversation" (needs unique ids). -/
theorem cascade_pred_agrees (msgs : List Message) (cid : Nat)
    (hids : (msgs.map (fun m => m.id)).Nodup) :
    ∀ m ∈ msgs,
      (decide ¬(msgs.any (fun m' => m'.conversationId = cid ∧ m'.id = m.id) = true)) =
        decide (m.conversationId ≠ cid) := by
  intro m hm
  by_cases hc : m.conversationId = cid
  · have : msgs.any (fun m' => m'.conversationId = cid ∧ m'.id = m.id) = true := by
      simp only [List.any_eq_true]
      exact ⟨m, hm, by simp [hc]⟩
    rw [this]
    simp [hc]
  · have : msgs.any (fun m' => m'.conversationId = cid ∧ m'.id = m.id) = false := by
      simp only [List.any_eq_false]
      intro m' hm'
      simp only [decide_eq_true_eq, not_and]
      intro hc' hid'
      exact hc (by rw [← List.inj_on_of_nodup_map hids hm' hm hid', hc'])
    rw [this]
    simp [hc]

/-- C6: after every completed message mutation — insert, content update,
single delete, the delete-all of a reconcile, or the deletes cascaded by
deleting a conversation — the full-text index still holds exactly one entry
per existing message id with that message's content (the index is a
permutation of the message table's `(id, content)` projection), and no index
entry survives the deletion of its message: every surviving entry belongs to
a surviving message.  Unique ids are guaranteed by the `INTEGER PRIMARY KEY`
column. -/
theorem C6_fts_index_exact_mirror (mu : Mutation) (db : DB)
    (hids : (db.messages.map (fun m => m.id)).Nodup)
    (hfts : ftsConsistent db) :
    ftsConsistent (applyMutation mu db) ∧
    ∀ e ∈ (applyMutation mu db).fts,
      ∃ m ∈ (applyMutation mu db).messages, m.id = e.1 ∧ m.content = e.2 := by
  have main : ftsConsistent (applyMutation mu db) := by
    cases mu with
    | insertMsg cid r c t =>
        simp only [applyMutation, insertMessage, ftsConsistent, List.map_append]
        exact hfts.append (List.Perm.refl _)
    | updateMsg mid c =>
        simp only [applyMutation, updateMessageContent, ftsConsistent]
        by_cases hany : db.messages.any (fun m => m.id = mid) = true
        · rw [if_pos hany]
          rcases List.any_eq_true.mp hany with ⟨m₀, hm₀, hid⟩
          have hid' : m₀.id = mid := by simpa using hid
          rcases List.append_of_mem hm₀ with ⟨s, t, hsplit⟩
          have hidsm := hids
          rw [hsplit, List.map_append, List.map_cons] at hidsm
          have hnotin : m₀.id ∉ s.map (fun m => m.id) ++ t.map (fun m => m.id) :=
            (List.nodup_cons.mp (List.nodup_middle.mp hidsm)).1
          have hs : ∀ x ∈ s, x.id ≠ mid := by
            intro x hx hxe
            apply hnotin
            exact List.mem_append.mpr
              (Or.inl (List.mem_map.mpr ⟨x, hx, by rw [hxe, hid']⟩))
          have ht : ∀ x ∈ t, x.id ≠ mid := by
            intro x hx hxe
            apply hnotin
            exact List.mem_append.mpr
              (Or.inr (List.mem_map.mpr ⟨x, hx, by rw [hxe, hid']⟩))
          have hfl : (db.messages.map (fun m => (m.id, m.content))).filter
              (fun e => e.1 ≠ mid) =
              s.map (fun m => (m.id, m.content)) ++
                t.map (fun m => (m.id, m.content)) := by
            rw [filter_map_congr (fun m => (m.id, m.content)) _
              (fun m => decide (m.id ≠ mid)) db.messages (fun m _ => rfl)]
            rw [hsplit, List.filter_append, List.filter_cons]
            have h1 : s.filter (fun m => decide (m.id ≠ mid)) = s :=
              List.filter_eq_self.mpr (fun x hx => by simpa using hs x hx)
            have h2 : t.filter (fun m => decide (m.id ≠ mid)) = t :=
              List.filter_eq_self.mpr (fun x hx => by simpa using ht x hx)
            rw [h1, h2]
            simp [hid', List.map_append]
          have hrhs : (db.messages.map
              (fun m => if m.id = mid then { m with content := c } else m)).map
                (fun m => (m.id, m.content)) =
              s.map (fun m => (m.id, m.content)) ++
                (mid, c) :: t.map (fun m => (m.id, m.content)) := by
            rw [hsplit]
            simp only [List.map_append, List.map_cons, List.map_map]
            congr 1
            · apply List.map_congr_left
              intro x hx
              simp [Function.comp, hs x hx]
            · congr 1
              · simp [Function.comp, hid']
              · apply List.map_congr_left
                intro x hx
                simp [Function.comp, ht x hx]
          refine List.Perm.trans
            ((hfts.filter _).append (List.Perm.refl [(mid, c)])) ?_
          rw [hfl, hrhs, List.append_assoc]
          exact List.Perm.append_left _ (List.perm_append_singleton _ _)
        · rw [if_neg hany]
          have hno : ∀ m ∈ db.messages, m.id ≠ mid := by
            have hfalse : db.messages.any (fun m => m.id = mid) = false := by
              revert hany; cases db.messages.any (fun m => m.id = mid) <;> simp
            simpa [List.any_eq_false] using hfalse
          have hmap : db.messages.map
              (fun m => if m.id = mid then { m with content := c } else m) =
              db.messages := by
            have := List.map_congr_left (l := db.messages)
              (f := fun m => if m.id = mid then { m with content := c } else m)
              (g := id) (fun m hmem => by simp [hno m hmem])
            simpa using this
          rw [hmap]
          exact hfts
    | deleteMsg mid =>
        simp only [applyMutation, deleteMessage, ftsConsistent]
        by_cases hany : db.messages.any (fun m => m.id = mid) = true
        · rw [if_pos hany]
          refine (hfts.filter _).trans ?_
          rw [filter_map_congr (fun m => (m.id, m.content)) _
            (fun m => decide (m.id ≠ mid)) db.messages (fun m _ => rfl)]
        · rw [if_neg hany]
          have hno : ∀ m ∈ db.messages, m.id ≠ mid := by
            have hfalse : db.messages.any (fun m => m.id = mid) = false := by
              revert hany; cases db.messages.any (fun m => m.id = mid) <;> simp
            simpa [List.any_eq_false] using hfalse
          have hflt : db.messages.filter (fun m => m.id ≠ mid) = db.messages :=
            List.filter_eq_self.mpr (fun x hx => by simpa using hno x hx)
          rw [hflt]
          exact hfts
    | deleteAllMsgs cid =>
        simp only [applyMutation, deleteAllMessages, ftsConsistent]
        refine (hfts.filter _).trans ?_
        rw [filter_map_congr (fun m => (m.id, m.content)) _
          (fun m => decide (m.conversationId ≠ cid)) db.messages
          (cascade_pred_agrees db.messages cid hids)]
    | deleteConv cid =>
        simp only [applyMutation, deleteConversation, ftsConsistent]
        refine (hfts.filter _).trans ?_
        rw [filter_map_congr (fun m => (m.id, m.content)) _
          (fun m => decide (m.conversationId ≠ cid)) db.messages
          (cascade_pred_agrees db.messages cid hids)]
  exact ⟨main, mem_messages_of_consistent _ main⟩

/-- Witness for C6: deleting conversation 1 of a two-conversation store
cascades away message 1 and its index entry, leaving the index an exact
mirror of the surviving message. -/
theorem C6_witness :
    ((⟨[⟨1, "T", "m", none, 0⟩, ⟨2, "U", "m", none, 0⟩],
       [⟨1, 1, "user", "a", 1⟩, ⟨2, 2, "user", "b", 2⟩],
       [(1, "a"), (2, "b")], 3, 3⟩ : DB).messages.map (fun m => m.id)).Nodup ∧
    ftsConsistent
      ⟨[⟨1, "T", "m", none, 0⟩, ⟨2, "U", "m", none, 0⟩],
       [⟨1, 1, "user", "a", 1⟩, ⟨2, 2, "user", "b", 2⟩],
       [(1, "a"), (2, "b")], 3, 3⟩ ∧
    (ftsConsistent (applyMutation (Mutation.deleteConv 1)
        ⟨[⟨1, "T", "m", none, 0⟩, ⟨2, "U", "m", none, 0⟩],
         [⟨1, 1, "user", "a", 1⟩, ⟨2, 2, "user", "b", 2⟩],
         [(1, "a"), (2, "b")], 3, 3⟩) ∧
      ∀ e ∈ (applyMutation (Mutation.deleteConv 1)
          ⟨[⟨1, "T", "m", none, 0⟩, ⟨2, "U", "m", none, 0⟩],
           [⟨1, 1, "user", "a", 1⟩, ⟨2, 2, "user", "b", 2⟩],
           [(1, "a"), (2, "b")], 3, 3⟩).fts,
        ∃ m ∈ (applyMutation (Mutation.deleteConv 1)
            ⟨[⟨1, "T", "m", none, 0⟩, ⟨2, "U", "m", none, 0⟩],
             [⟨1, 1, "user", "a", 1⟩, ⟨2, 2, "user", "b", 2⟩],
             [(1, "a"), (2, "b")], 3, 3⟩).messages,
          m.id = e.1 ∧ m.content = e.2) :=
  ⟨by decide, by decide,
    C6_fts_index_exact_mirror (Mutation.deleteConv 1) _ (by decide) (by decide)⟩

/-- With unique ids, looking a member up by its id finds exactly it. -/
theorem find?_id_self :
    ∀ (l : List Message) (M : Message),
      (l.map (fun m => m.id)).Nodup → M ∈ l →
      l.find? (fun m => m.id = M.id) = some M := by
  intro l
  induction l with
  | nil => intro M _ h; cases h
  | cons a t ih =>
    intro M hnd hmem
    by_cases ha : a.id = M.id
    · have haM : a = M := by
        rcases List.mem_cons.mp hmem with h | hm
        · exact h.symm
        · exfalso
          have hMt : M.id ∈ t.map (fun m => m.id) :=
            List.mem_map.mpr ⟨M, hm, rfl⟩
          rw [List.map_cons] at hnd
          exact (List.nodup_cons.mp hnd).1 (ha ▸ hMt)
      subst haM
      simp [List.find?_cons, ha]
    · have hMt : M ∈ t := by
        rcases List.mem_cons.mp hmem with h | hm
        · exact absurd (h ▸ rfl) ha
        · exact hm
      rw [List.map_cons] at hnd
      rw [List.find?_cons]
      simp only [ha, decide_eq_true_eq, if_neg]
      exact ih M (List.nodup_cons.mp hnd).2 hMt

/-- C5, counterexample: in a conversation whose two messages share
`created_at = 10` (as happens whenever one reconcile inserts both in the same
clock second), branching at the FIRST message copies by `created_at <= 10`
and therefore copies BOTH messages — not the one-element prefix up to and
including the branch point that the claim promises. -/
theorem C5_counterexample_tied_timestamps_copy_beyond_prefix :
    branch 1 1 (fun _ => 20)
      ⟨[⟨1, "T", "m", none, 0⟩],
       [⟨1, 1, "user", "a", 10⟩, ⟨2, 1, "user", "b", 10⟩],
       [(1, "a"), (2, "b")], 2, 3⟩ =
      .ok (⟨[⟨1, "T", "m", none, 0⟩,
             ⟨2, "Branch of \x22T\x22", "m", none, 20⟩],
            [⟨1, 1, "user", "a", 10⟩, ⟨2, 1, "user", "b", 10⟩,
             ⟨3, 2, "user", "a", 20⟩, ⟨4, 2, "user", "b", 20⟩],
            [(1, "a"), (2, "b"), (3, "a"), (4, "b")], 3, 5⟩, 2) ∧
    (msgsOf
        ⟨[⟨1, "T", "m", none, 0⟩,
          ⟨2, "Branch of \x22T\x22", "m", none, 20⟩],
         [⟨1, 1, "user", "a", 10⟩, ⟨2, 1, "user", "b", 10⟩,
          ⟨3, 2, "user", "a", 20⟩, ⟨4, 2, "user", "b", 20⟩],
         [(1, "a"), (2, "b"), (3, "a"), (4, "b")], 3, 5⟩ 2).map rc ≠
      ((msgsOf
          ⟨[⟨1, "T", "m", none, 0⟩],
           [⟨1, 1, "user", "a", 10⟩, ⟨2, 1, "user", "b", 10⟩],
           [(1, "a"), (2, "b")], 2, 3⟩ 1).take 1).map rc ∧
    (msgsOf
        ⟨[⟨1, "T", "m", none, 0⟩],
         [⟨1, 1, "user", "a", 10⟩, ⟨2, 1, "user", "b", 10⟩],
         [(1, "a"), (2, "b")], 2, 3⟩ 1).take 1 =
      [⟨1, 1, "user", "a", 10⟩] := by
  refine ⟨?_, by decide, by decide⟩
  rfl

/-- C5 as amended: a successful branch from message `M` of conversation `A`
creates a new, independent conversation — same model and system instruction,
title `Branch of "<A's title>"` — whose messages are exactly the messages of
`A` with `created_at` at most `M`'s, in the same relative order, and leaves
`A`'s conversation row and message set unmodified.  Whenever `A`'s message
timestamps are strictly increasing in table order (no ties), that copied set
is exactly the prefix of `A`'s messages up to and including `M`, as the
original claim states; with tied timestamps, messages after `M` sharing its
timestamp are copied as well (see the counterexample). -/
theorem C5_branch_copies_prefix_under_strict_timestamps (db : DB)
    (srcCid : Nat) (M : Message) (l₁ l₂ : List Message) (sc : Conversation)
    (clock : Nat → Nat)
    (hwf : WF db)
    (hsplit : msgsOf db srcCid = l₁ ++ M :: l₂)
    (hstrict : (msgsOf db srcCid).Pairwise
      (fun a b => a.createdAt < b.createdAt))
    (hsc : db.conversations.find? (fun c => c.id = srcCid) = some sc) :
    ∃ db', branch srcCid M.id clock db = .ok (db', db.nextConvId) ∧
      (msgsOf db' db.nextConvId).map rc = (l₁ ++ [M]).map rc ∧
      msgsOf db' srcCid = msgsOf db srcCid ∧
      db'.conversations = db.conversations ++
        [⟨db.nextConvId, "Branch of \x22" ++ sc.title ++ "\x22",
          sc.model, sc.system_prompt, clock db.nextMsgId⟩] := by
  obtain ⟨hnodupM, hmsgLt, hconvLt, hnodupC, hcLt⟩ := hwf
  have hMmem' : M ∈ msgsOf db srcCid := by
    rw [hsplit]
    exact List.mem_append.mpr (Or.inr (List.mem_cons_self _ _))
  have hMmem : M ∈ db.messages := (List.mem_filter.mp hMmem').1
  have hfind : db.messages.find? (fun m => m.id = M.id) = some M :=
    find?_id_self db.messages M hnodupM hMmem
  have hl₁M : ∀ x ∈ l₁, x.createdAt < M.createdAt := by
    rw [hsplit] at hstrict
    have h := (List.pairwise_append.mp hstrict).2.2
    intro x hx
    exact h x hx M (List.mem_cons_self _ _)
  have hl₂M : ∀ y ∈ l₂, M.createdAt < y.createdAt := by
    rw [hsplit] at hstrict
    exact (List.pairwise_cons.mp (List.pairwise_append.mp hstrict).2.1).1
  have hfilter : db.messages.filter
      (fun m => m.conversationId = srcCid ∧ m.createdAt ≤ M.createdAt) =
      l₁ ++ [M] := by
    have h1 : db.messages.filter
        (fun m => m.conversationId = srcCid ∧ m.createdAt ≤ M.createdAt) =
        (msgsOf db srcCid).filter (fun m => m.createdAt ≤ M.createdAt) := by
      rw [msgsOf, List.filter_filter]
      apply List.filter_congr
      intro m _
      rw [Bool.decide_and]
      exact Bool.and_comm _ _
    rw [h1, hsplit, List.filter_append, List.filter_cons]
    have h2 : l₁.filter (fun m => m.createdAt ≤ M.createdAt) = l₁ :=
      List.filter_eq_self.mpr (fun x hx => by
        simpa using Nat.le_of_lt (hl₁M x hx))
    have h3 : l₂.filter (fun m => m.createdAt ≤ M.createdAt) = [] := by
      apply List.filter_eq_nil_iff.mpr
      intro y hy
      simpa using Nat.not_le.mpr (hl₂M y hy)
    rw [h2, h3]
    simp
  have hsorted : sortByCreatedAt (l₁ ++ [M]) = l₁ ++ [M] := by
    apply List.Sorted.insertionSort_eq
    have hsub : (l₁ ++ [M]).Sublist (l₁ ++ M :: l₂) :=
      List.Sublist.append_left ((List.nil_sublist l₂).cons₂ M) l₁
    have hp : (l₁ ++ [M]).Pairwise (fun a b => a.createdAt < b.createdAt) :=
      (hsplit ▸ hstrict).sublist hsub
    exact hp.imp (fun h => Nat.le_of_lt h)
  have hbranch : branch srcCid M.id clock db =
      .ok (insertList clock db.nextConvId ((l₁ ++ [M]).map rc)
        { db with
          conversations := db.conversations ++
            [⟨db.nextConvId, "Branch of \x22" ++ sc.title ++ "\x22",
              sc.model, sc.system_prompt, clock db.nextMsgId⟩]
          nextConvId := db.nextConvId + 1 }, db.nextConvId) := by
    simp only [branch, hfind, hfilter, hsorted, hsc, createConversation]
  refine ⟨_, hbranch, ?_, ?_, ?_⟩
  · rw [insertList_msgsOf_self]
    have hnil : msgsOf
        { db with
          conversations := db.conversations ++
            [⟨db.nextConvId, "Branch of \x22" ++ sc.title ++ "\x22",
              sc.model, sc.system_prompt, clock db.nextMsgId⟩]
          nextConvId := db.nextConvId + 1 } db.nextConvId = [] := by
      rw [msgsOf]
      apply List.filter_eq_nil_iff.mpr
      intro m hm
      simp only [decide_eq_true_eq]
      exact Nat.ne_of_lt (hconvLt m hm)
    rw [hnil]
    rfl
  · have hne : srcCid ≠ db.nextConvId := by
      have hscmem : sc ∈ db.conversations := List.mem_of_find?_eq_some hsc
      have hscid : sc.id = srcCid := by simpa using List.find?_some hsc
      have := hcLt sc hscmem
      omega
    rw [insertList_msgsOf_other clock db.nextConvId srcCid hne]
    rfl
  · rw [insertList_conversations]

/-- Witness for the amended C5: branching at the second (last) message of a
conversation with strictly increasing timestamps copies both messages into
conversation 2 and leaves conversation 1 untouched. -/
theorem C5_witness :
    WF ⟨[⟨1, "T", "m", none, 0⟩],
        [⟨1, 1, "user", "a", 10⟩, ⟨2, 1, "user", "b", 20⟩],
        [(1, "a"), (2, "b")], 2, 3⟩ ∧
    msgsOf ⟨[⟨1, "T", "m", none, 0⟩],
        [⟨1, 1, "user", "a", 10⟩, ⟨2, 1, "user", "b", 20⟩],
        [(1, "a"), (2, "b")], 2, 3⟩ 1 =
      [⟨1, 1, "user", "a", 10⟩] ++ ⟨2, 1, "user", "b", 20⟩ :: [] ∧
    (msgsOf ⟨[⟨1, "T", "m", none, 0⟩],
        [⟨1, 1, "user", "a", 10⟩, ⟨2, 1, "user", "b", 20⟩],
        [(1, "a"), (2, "b")], 2, 3⟩ 1).Pairwise
      (fun a b => a.createdAt < b.createdAt) ∧
    (⟨[⟨1, "T", "m", none, 0⟩],
        [⟨1, 1, "user", "a", 10⟩, ⟨2, 1, "user", "b", 20⟩],
        [(1, "a"), (2, "b")], 2, 3⟩ : DB).conversations.find?
      (fun c => c.id = 1) = some ⟨1, "T", "m", none, 0⟩ ∧
    ∃ db', branch 1 2 (fun _ => 30)
        ⟨[⟨1, "T", "m", none, 0⟩],
         [⟨1, 1, "user", "a", 10⟩, ⟨2, 1, "user", "b", 20⟩],
         [(1, "a"), (2, "b")], 2, 3⟩ = .ok (db', 2) ∧
      (msgsOf db' 2).map rc =
        (([⟨1, 1, "user", "a", 10⟩] : List Message) ++
          ([⟨2, 1, "user", "b", 20⟩] : List Message)).map rc ∧
      msgsOf db' 1 = msgsOf (⟨[⟨1, "T", "m", none, 0⟩],
          [⟨1, 1, "user", "a", 10⟩, ⟨2, 1, "user", "b", 20⟩],
          [(1, "a"), (2, "b")], 2, 3⟩ : DB) 1 ∧
      db'.conversations =
        (⟨[⟨1, "T", "m", none, 0⟩],
          [⟨1, 1, "user", "a", 10⟩, ⟨2, 1, "user", "b", 20⟩],
          [(1, "a"), (2, "b")], 2, 3⟩ : DB).conversations ++
          [⟨2, "Branch of \x22T\x22", "m", none, 30⟩] :=
  ⟨by decide, by decide, by decide, by decide,
    C5_branch_copies_prefix_under_strict_timestamps
      ⟨[⟨1, "T", "m", none, 0⟩],
       [⟨1, 1, "user", "a", 10⟩, ⟨2, 1, "user", "b", 20⟩],
       [(1, "a"), (2, "b")], 2, 3⟩ 1 (⟨2, 1, "user", "b", 20⟩ : Message)
      ([⟨1, 1, "user", "a", 10⟩] : List Message) ([] : List Message)
      (⟨1, "T", "m", none, 0⟩ : Conversation) (fun _ => 30)
      (by decide) (by decide) (by decide) (by decide)⟩

end VertexLocal
